import Mathlib

/-!
Shallow embedding of the core of the sovereign-sdk rollup substrate:
the counted blob reader (`rollup-interface/src/state_machine/da.rs`),
the blob admission scheduler (`sov-blob-storage`), the storage trait's
default methods and key encoding (`sov-state/src/storage.rs`), the
state map/value containers (`sov-state/src/map.rs`, `value.rs`), and
the Avail chain validity condition (`adapters/avail/src/verifier.rs`).
Bytes are modelled as `Nat` (each meant to be `< 256` where relevant),
byte buffers as `List Nat`.
-/

namespace SovSdk

/-! ### CountedBufReader (rollup-interface/src/state_machine/da.rs) -/

/-- `Accumulator` from `da.rs`: wraps the accumulated vector and records
whether the underlying buffer has been completely read. -/
inductive Accumulator : Type
  | completed (v : List Nat)
  | inProgress (v : List Nat)
deriving DecidableEq, Repr

/-- The accumulated vector held by either constructor. -/
def Accumulator.vec : Accumulator → List Nat
  | .completed v => v
  | .inProgress v => v

/-- Whether the accumulator is in the `Completed` state. -/
def Accumulator.isCompleted : Accumulator → Bool
  | .completed _ => true
  | .inProgress _ => false

/-- `CountedBufReader` from `da.rs`: the unread remainder of the blob data
(`inner`, a `Buf` positioned after the already-consumed bytes), the count of
bytes read so far, and the accumulator of bytes read so far. -/
structure CountedBufReader : Type where
  inner : List Nat
  counter : Nat
  accumulator : Accumulator
deriving DecidableEq, Repr

namespace CountedBufReader

/-- `CountedBufReader::new`: counter 0, accumulator `InProgress` and empty. -/
def new (inner : List Nat) : CountedBufReader :=
  { inner := inner, counter := 0, accumulator := .inProgress [] }

/-- `total_len`: bytes remaining plus bytes already read. -/
def total_len (r : CountedBufReader) : Nat :=
  r.inner.length + r.counter

/-- `<CountedBufReader as Read>::read`, for a destination buffer of length
`bufLen`. Mirrors the source order of operations: first
`inner.copy_to_slice(&mut buf[..buf_end])` with
`buf_end = min(buf.len(), len_before_reading)` (advancing `inner`), then the
match on the accumulator — returning `Ok(0)` without touching counter or
accumulator when it is `Completed` — then extending the accumulator with the
bytes read, marking it `Completed` when the remainder hits zero, and adding
`num_read` to the counter. Returns the updated reader and the `Ok` byte
count. -/
def read (r : CountedBufReader) (bufLen : Nat) : CountedBufReader × Nat :=
  let lenBeforeReading := r.inner.length
  let bufEnd := min bufLen lenBeforeReading
  let readBytes := r.inner.take bufEnd
  let newInner := r.inner.drop bufEnd
  let numRead := lenBeforeReading - newInner.length
  match r.accumulator with
  | .completed _ => ({ r with inner := newInner }, 0)
  | .inProgress innerVec =>
      let acc := innerVec ++ readBytes
      let newAccumulator :=
        if newInner.length = 0 then Accumulator.completed acc
        else Accumulator.inProgress acc
      ({ inner := newInner, counter := r.counter + numRead,
         accumulator := newAccumulator }, numRead)

/-- A sequence of `read` calls with the given destination-buffer lengths. -/
def readSeq (r : CountedBufReader) : List Nat → CountedBufReader
  | [] => r
  | n :: ns => readSeq (read r n).1 ns

end CountedBufReader

/-! ### Blob admission scheduler (sov-blob-storage) -/

/-- A DA blob as the scheduler sees it: sender DA address and an identifier
(standing for the content hash / payload). -/
structure Blob : Type where
  sender : Nat
  hash : Nat
deriving DecidableEq, Repr

/-- The sequencer registry state visible to the scheduler: the set of
registered DA addresses and the (at most one) preferred DA address. -/
structure Registry : Type where
  registered : List Nat
  preferred : Option Nat
deriving DecidableEq, Repr

/-- Modelled from the spec: `BlobStorage::get_blobs_for_this_slot`
(`sov-blob-storage`, implementation not present under `src/`, only its
tests). Scheduler rules of spec §4.3 as exercised by
`tests/capability_tests.rs`: blobs from unregistered senders are dropped;
with a preferred sequencer registered, current-slot preferred blobs execute
first in observed order, followed by the blobs deferred from the previous
slot in original order, while all other current-slot registered blobs are
deferred to the next slot; with no preferred sequencer, the deferred queue
drains first and then all current registered blobs execute in observed
order, and nothing is deferred. Returns (execution order, new deferred
queue). -/
def get_blobs_for_this_slot (reg : Registry) (deferred : List Blob)
    (current : List Blob) : List Blob × List Blob :=
  match reg.preferred with
  | some p =>
      let priority := current.filter (fun b => b.sender = p)
      let toDefer := current.filter
        (fun b => b.sender ≠ p ∧ b.sender ∈ reg.registered)
      (priority ++ deferred, toDefer)
  | none =>
      let cur := current.filter (fun b => b.sender ∈ reg.registered)
      (deferred ++ cur, [])

/-- One slot's input: the registry as of that slot and the blobs observed
on the DA layer in that slot. -/
structure SlotInput : Type where
  reg : Registry
  blobs : List Blob
deriving Repr

/-- Process a sequence of slots starting from deferred queue `q`,
returning each slot's execution order. -/
def processSlots (q : List Blob) : List SlotInput → List (List Blob)
  | [] => []
  | inp :: rest =>
      let step := get_blobs_for_this_slot inp.reg q inp.blobs
      step.1 :: processSlots step.2 rest

/-- The deferred queue left after processing a sequence of slots starting
from deferred queue `q`. -/
def processSlotsQueue (q : List Blob) : List SlotInput → List Blob
  | [] => q
  | inp :: rest =>
      processSlotsQueue (get_blobs_for_this_slot inp.reg q inp.blobs).2 rest

/-! ### Storage keys (sov-state/src/storage.rs) -/

/-- A `Prefix` (sov-state/src/lib.rs): the byte string identifying one
logical container. -/
structure Prefix : Type where
  prefix_bytes : List Nat
deriving DecidableEq, Repr

/-- `nohash_serialize` writes the byte chunks a key's `Hash` impl emits,
concatenated in order, with no actual hashing.  For a key of type
`Vec<u8>` the standard-library `Hash` impl writes `write_length_prefix(len)`
(a `usize` → 8 little-endian bytes on 64-bit targets) followed by the raw
bytes, so the encoding is the 8-byte little-endian length followed by the
contents. `leBytes k n` is the `k`-byte little-endian rendering of `n`. -/
def leBytes : Nat → Nat → List Nat
  | 0, _ => []
  | k + 1, n => n % 256 :: leBytes k (n / 256)

/-- `nohash_serialize` on a `Vec<u8>` key (the concatenated `Hasher::write`
calls of the std `Hash` impl for byte vectors). -/
def nohash_serialize_vec (key : List Nat) : List Nat :=
  leBytes 8 key.length ++ key

/-- `StorageKey` from `storage.rs`: the flat byte key. -/
structure StorageKey : Type where
  key : List Nat
deriving DecidableEq, Repr

/-- `StorageKey::new`: concatenates the prefix bytes with the
`nohash_serialize` encoding of the logical key (`AlignedVec::extend` is
byte concatenation; the spec renders it as
`encode(prefix) ++ encode(logical_key)`). The logical key is supplied
already passed through its `Hash`-writer encoding `encodedKey`. -/
def StorageKey.new (p : Prefix) (encodedKey : List Nat) : StorageKey :=
  { key := p.prefix_bytes ++ encodedKey }

/-- `StorageKey::new` specialised to `Vec<u8>` logical keys. -/
def StorageKey.newVec (p : Prefix) (key : List Nat) : StorageKey :=
  StorageKey.new p (nohash_serialize_vec key)

/-! ### Storage trait default methods (sov-state/src/storage.rs) -/

/-- An implementation of the `Storage` trait, over state type `σ`,
ordered-reads-and-writes type `Acc`, witness type `W`, state-update type
`Upd` and proof type `P`. Root hashes are `List Nat` (the `[u8; 32]`),
errors are `String` (anyhow). `commit` mutates the backing store, modelled
as an explicit state transition; `open_proof` opens a storage proof into
its (key, optional value) leaf. -/
structure StorageImpl (σ Acc W Upd P : Type) : Type where
  compute_state_update : σ → Acc → W → Except String (List Nat × Upd)
  commit : σ → Upd → σ
  open_proof : σ → List Nat → P → Except String (StorageKey × Option (List Nat))

/-- The `Storage::validate_and_commit` default method:
`compute_state_update` then `commit`, returning the new root. The
post-commit store state is returned alongside to make the state change
explicit. -/
def validate_and_commit {σ Acc W Upd P : Type}
    (S : StorageImpl σ Acc W Upd P) (s : σ) (a : Acc) (w : W) :
    Except String (List Nat × σ) :=
  match S.compute_state_update s a w with
  | .ok (root_hash, node_batch) => .ok (root_hash, S.commit s node_batch)
  | .error e => .error e

/-- A `StateMap` as the `Storage::verify_proof` default method sees it:
its prefix (the codec plays no role there). -/
structure StateMapShape : Type where
  shapePfx : Prefix

/-- The `Storage::verify_proof` default method: open the proof, then
`ensure!` that the opened storage key equals
`StorageKey::new(storage_map.prefix(), expected_key)`, returning the opened
value on success. `expectedKeyEnc` is the expected logical key already
passed through its `Hash`-writer encoding. -/
def verify_proof {σ Acc W Upd P : Type}
    (S : StorageImpl σ Acc W Upd P) (s : σ) (state_root : List Nat) (proof : P)
    (expectedKeyEnc : List Nat) (storage_map : StateMapShape) :
    Except String (Option (List Nat)) :=
  match S.open_proof s state_root proof with
  | .error e => .error e
  | .ok (storage_key, storage_value) =>
      if storage_key = StorageKey.new storage_map.shapePfx expectedKeyEnc
      then .ok storage_value
      else .error
        "The storage key from the proof does not match the expected storage key."

/-! ### WorkingSet, StateMap and StateValue (sov-state) -/

/-- A value codec (`StateValueCodec`): encode to bytes, fallibly decode. -/
structure CodecModel (V : Type) : Type where
  encode_value : V → List Nat
  try_decode_value : List Nat → Option V

/-- Modelled from the spec: the `WorkingSet` of `sov-state/src/scratchpad.rs`
(not present under `src/`; only its callers `map.rs` and `value.rs` are).
Per spec §4.1 the working set holds the live cache log of this batch —
recording the most recent write (or delete) per flat storage key — and
delegates to the storage backend on a local cache miss. The cache is the
association list of writes, most recent first; `backend` is the composite
read through the backend (cache-recorded first reads included). -/
structure WorkingSetModel : Type where
  cache : List (StorageKey × Option (List Nat))
  backend : StorageKey → Option (List Nat)

/-- Modelled from the spec: `WorkingSet::set_value` — encodes the value with
the codec and records the write in the cache log; the backend is not
touched. -/
def WorkingSetModel.set_value {V : Type} (ws : WorkingSetModel) (p : Prefix)
    (encodedKey : List Nat) (value : V) (codec : CodecModel V) :
    WorkingSetModel :=
  { ws with cache :=
      (StorageKey.new p encodedKey, some (codec.encode_value value)) :: ws.cache }

/-- Modelled from the spec: `WorkingSet::delete_value` — records a delete
(a write of "absent") in the cache log. -/
def WorkingSetModel.delete_value (ws : WorkingSetModel) (p : Prefix)
    (encodedKey : List Nat) : WorkingSetModel :=
  { ws with cache := (StorageKey.new p encodedKey, none) :: ws.cache }

/-- Modelled from the spec: `WorkingSet::get_value` — looks up the flat key
in the live cache log first; on a local cache miss delegates to the
backend; decodes the resulting bytes with the codec. -/
def WorkingSetModel.get_value {V : Type} (ws : WorkingSetModel) (p : Prefix)
    (encodedKey : List Nat) (codec : CodecModel V) : Option V :=
  let k := StorageKey.new p encodedKey
  match ws.cache.lookup k with
  | some (some bytes) => codec.try_decode_value bytes
  | some none => none
  | none => (ws.backend k).bind codec.try_decode_value

/-- A `StateMap` (`map.rs`): a prefix, a key encoding (the logical key
type's `Hash`-writer serialisation) and a value codec. -/
structure StateMapModel (K V : Type) : Type where
  mapPfx : Prefix
  key_enc : K → List Nat
  value_codec : CodecModel V

/-- `StateMap::set`: delegates to `working_set.set_value`. -/
def StateMapModel.set {K V : Type} (m : StateMapModel K V) (key : K)
    (value : V) (ws : WorkingSetModel) : WorkingSetModel :=
  ws.set_value m.mapPfx (m.key_enc key) value m.value_codec

/-- `StateMap::get`: delegates to `working_set.get_value`. -/
def StateMapModel.get {K V : Type} (m : StateMapModel K V) (key : K)
    (ws : WorkingSetModel) : Option V :=
  ws.get_value m.mapPfx (m.key_enc key) m.value_codec

/-- A `StateValue` (`value.rs`): a prefix and a value codec. Its operations
use the `SingletonKey`, whose derived `Hash` impl writes no bytes, so the
encoded singleton key is empty. -/
structure StateValueModel (V : Type) : Type where
  valuePfx : Prefix
  value_codec : CodecModel V

/-- `StateValue::set`: `working_set.set_value(prefix, SingletonKey, v)`. -/
def StateValueModel.set {V : Type} (sv : StateValueModel V) (value : V)
    (ws : WorkingSetModel) : WorkingSetModel :=
  ws.set_value sv.valuePfx [] value sv.value_codec

/-- `StateValue::get`: `working_set.get_value(prefix, SingletonKey)`. -/
def StateValueModel.get {V : Type} (sv : StateValueModel V)
    (ws : WorkingSetModel) : Option V :=
  ws.get_value sv.valuePfx [] sv.value_codec

/-! ### Chain validity condition (adapters/avail/src/verifier.rs) -/

/-- `ChainValidityCondition`: the (prev_hash, block_hash) pair. Hashes are
`List Nat` standing for `[u8; 32]`. -/
structure ChainValidityCondition : Type where
  prev_hash : List Nat
  block_hash : List Nat
deriving DecidableEq, Repr

/-- `ValidityConditionError::BlocksNotConsecutive`. -/
inductive ValidityConditionError : Type
  | blocksNotConsecutive
deriving DecidableEq, Repr

/-- `ChainValidityCondition::combine`: errors with `BlocksNotConsecutive`
when `self.block_hash != rhs.prev_hash`, otherwise returns `rhs`. -/
def ChainValidityCondition.combine (lhs rhs : ChainValidityCondition) :
    Except ValidityConditionError ChainValidityCondition :=
  if lhs.block_hash ≠ rhs.prev_hash then
    .error .blocksNotConsecutive
  else
    .ok rhs

/-! ### Concrete fixtures used by witnesses and counterexamples

These mirror the scenario of `tests/capability_tests.rs`: DA address 10 is
the preferred sequencer, 30 a regular registered sequencer, 40 never
registered. -/

/-- Whether a registry is well formed: the preferred sequencer, when one is
set, is a registered sequencer (the preferred flag is part of a registry
entry). -/
def Registry.WF (r : Registry) : Prop :=
  ∀ p, r.preferred = some p → p ∈ r.registered

instance (r : Registry) : Decidable r.WF :=
  match hr : r.preferred with
  | some p =>
      if h : p ∈ r.registered then
        isTrue (fun q hq => by
          rw [hr] at hq
          injection hq with h'
          exact h' ▸ h)
      else
        isFalse (fun hall => h (hall p hr))
  | none =>
      isTrue (fun q hq => by rw [hr] at hq; cases hq)

/-- Registry with preferred sequencer 10 and regular sequencer 30. -/
def regPref : Registry := { registered := [10, 30], preferred := some 10 }

/-- The deferred queue carried into slot 2 of the priority-sequencer flow:
the two regular blobs of slot 1, in arrival order. -/
def c1Deferred : List Blob := [⟨30, 1⟩, ⟨30, 2⟩]

/-- Slot-2 observed blobs of the priority-sequencer flow: a regular blob,
a preferred blob, a regular blob. -/
def c1Current : List Blob := [⟨30, 4⟩, ⟨10, 5⟩, ⟨30, 6⟩]

/-- The two slots of the C2 scenario: slot 1 observes
[B1 regular, B2 regular, B3 preferred], slot 2 observes
[B4 regular, B5 preferred]. -/
def c2Slots : List SlotInput :=
  [⟨regPref, [⟨30, 1⟩, ⟨30, 2⟩, ⟨10, 3⟩]⟩, ⟨regPref, [⟨30, 4⟩, ⟨10, 5⟩]⟩]

/-- The C6 witness scenario (the unregistered-sender test): slot 1 observes
a regular blob, a blob from never-registered address 40 and a preferred
blob; slot 2 observes nothing. -/
def c6Slots : List SlotInput :=
  [⟨regPref, [⟨30, 1⟩, ⟨40, 2⟩, ⟨10, 3⟩]⟩, ⟨regPref, []⟩]

/-- A concrete `Storage` implementation used to witness the default-method
theorems: the store is a number, `compute_state_update` succeeds with a
one-byte root, `commit` adds the update, `open_proof` opens a
(key bytes, value) pair proof unchanged. -/
def natStorage : StorageImpl Nat Nat Unit Nat (List Nat × Option (List Nat)) :=
  { compute_state_update := fun s a _ => .ok ([s + a], a)
  , commit := fun s u => s + u
  , open_proof := fun _ _ pr => .ok (⟨pr.1⟩, pr.2) }

/-- A codec on `Nat` used by the witnesses: a value encodes to a singleton
byte list and decodes back. -/
def natCodec : CodecModel Nat :=
  { encode_value := fun n => [n]
  , try_decode_value := fun l => match l with | [n] => some n | _ => none }

/-- A concrete `StateMap` fixture. -/
def natMap : StateMapModel Nat Nat :=
  { mapPfx := ⟨[5]⟩, key_enc := fun k => [k], value_codec := natCodec }

/-- A concrete `StateValue` fixture. -/
def natValue : StateValueModel Nat :=
  { valuePfx := ⟨[6]⟩, value_codec := natCodec }

/-- An empty working set over an empty backend. -/
def emptyWS : WorkingSetModel := { cache := [], backend := fun _ => none }

/-- The state invariant of a `CountedBufReader` created over original
buffer contents `L`: the counter never exceeds the original length, the
unread remainder is the suffix of `L` past the counter, the accumulator
holds exactly the first `counter` bytes of `L`, and a completed
accumulator means the whole buffer was consumed. -/
def ReaderInv (L : List Nat) (r : CountedBufReader) : Prop :=
  r.counter ≤ L.length ∧
  r.inner = L.drop r.counter ∧
  r.accumulator.vec = L.take r.counter ∧
  (r.accumulator.isCompleted = true → r.counter = L.length)

/-! ### Scheduler theorems -/

/-- C1 (counterexample): it is not the case that all blobs deferred from
the previous slot are placed before every current-slot preferred blob in
the output of `get_blobs_for_this_slot`. In the slot-2 configuration of the
priority-sequencer flow the output is [B5 (preferred), B1, B2 (deferred)]:
the deferred blobs sit at positions 1 and 2, after the preferred blob at
position 0. -/
theorem C1_counterexample :
    ¬ (∀ (i j : Fin (get_blobs_for_this_slot regPref c1Deferred c1Current).1.length),
        (get_blobs_for_this_slot regPref c1Deferred c1Current).1.get i ∈ c1Deferred →
        ((get_blobs_for_this_slot regPref c1Deferred c1Current).1.get j).sender = 10 →
        (i : Nat) < (j : Nat)) := by
  decide

/-- C1 (amended): with a preferred sequencer `p` registered, the execution
order of a slot is exactly the current-slot preferred blobs in observed
order followed by all blobs deferred from the previous slot in their
original arrival order — the deferred blobs come after, not before, the
current-slot preferred blobs, and before nothing else (the current slot's
regular blobs are deferred, not executed). -/
theorem C1_deferred_follow_preferred (p : Nat) (registered : List Nat)
    (deferred current : List Blob) :
    (get_blobs_for_this_slot ⟨registered, some p⟩ deferred current).1 =
      current.filter (fun b => b.sender = p) ++ deferred := by
  rfl

/-- C2 (counterexample): in the two-slot scenario with slot 1 observing
[B1 regular, B2 regular, B3 preferred] and slot 2 observing
[B4 regular, B5 preferred], the slot-2 execution order is not
[B5, B1, B2, B4] as claimed: B4 is deferred to slot 3, not executed in
slot 2. -/
theorem C2_counterexample :
    processSlots [] c2Slots ≠
      [[⟨10, 3⟩], [⟨10, 5⟩, ⟨30, 1⟩, ⟨30, 2⟩, ⟨30, 4⟩]] := by
  decide

/-- C2 (amended): slot-1 execution is [B3]; slot-2 execution is
[B5, B1, B2] (current preferred first, then the blobs deferred from slot 1
in original order); the current-slot regular blob B4 is deferred and
executes in slot 3. -/
theorem C2_two_slot_flow :
    processSlots [] (c2Slots ++ [⟨regPref, []⟩]) =
      [[⟨10, 3⟩], [⟨10, 5⟩, ⟨30, 1⟩, ⟨30, 2⟩], [⟨30, 4⟩]] := by
  decide

/-- Helper for C6: starting from a deferred queue free of sender `s`, if
`s` is unregistered in every processed slot (and each slot's registry is
well formed), then no executed blob and no blob left in the deferred queue
has sender `s`. -/
theorem processSlots_sender_free (s : Nat) :
    ∀ (inputs : List SlotInput) (q : List Blob),
      (∀ b ∈ q, b.sender ≠ s) →
      (∀ inp ∈ inputs, inp.reg.WF ∧ s ∉ inp.reg.registered) →
      (∀ out ∈ processSlots q inputs, ∀ bl ∈ out, bl.sender ≠ s) ∧
      (∀ bl ∈ processSlotsQueue q inputs, bl.sender ≠ s) := by
  intro inputs
  induction inputs with
  | nil =>
      intro q hq _
      refine ⟨?_, ?_⟩
      · intro out hout
        simp [processSlots] at hout
      · intro bl hbl
        exact hq bl hbl
  | cons inp rest ih =>
      intro q hq hinp
      obtain ⟨hwf, hreg⟩ := hinp inp (List.mem_cons_self _ _)
      have hrest : ∀ i ∈ rest, i.reg.WF ∧ s ∉ i.reg.registered :=
        fun i hi => hinp i (List.mem_cons_of_mem _ hi)
      have hstep :
          (∀ bl ∈ (get_blobs_for_this_slot inp.reg q inp.blobs).1, bl.sender ≠ s) ∧
          (∀ bl ∈ (get_blobs_for_this_slot inp.reg q inp.blobs).2, bl.sender ≠ s) := by
        cases hp : inp.reg.preferred with
        | some p =>
            have hps : p ≠ s := fun h => hreg (h ▸ hwf p hp)
            constructor
            · intro bl hbl
              simp [get_blobs_for_this_slot, hp] at hbl
              rcases hbl with ⟨_, hsend⟩ | hbl
              · exact hsend ▸ hps
              · exact hq bl hbl
            · intro bl hbl
              simp [get_blobs_for_this_slot, hp] at hbl
              exact fun h => hreg (h ▸ hbl.2.2)
        | none =>
            constructor
            · intro bl hbl
              simp [get_blobs_for_this_slot, hp] at hbl
              rcases hbl with hbl | ⟨_, hsend⟩
              · exact hq bl hbl
              · exact fun h => hreg (h ▸ hsend)
            · intro bl hbl
              simp [get_blobs_for_this_slot, hp] at hbl
      have hrec := ih (get_blobs_for_this_slot inp.reg q inp.blobs).2 hstep.2 hrest
      refine ⟨?_, ?_⟩
      · intro out hout
        simp only [processSlots, List.mem_cons] at hout
        rcases hout with h | h
        · exact h ▸ hstep.1
        · exact hrec.1 out h
      · intro bl hbl
        exact hrec.2 bl (by simpa [processSlotsQueue] using hbl)

/-- C6 (confirmed): over any sequence of slots, a blob whose sender DA
address is never registered (and each slot registry is well formed, the
preferred sequencer being a registry entry) never appears in any slot's
execution order and is never left in the deferred queue: it is dropped in
the slot where it is observed. -/
theorem C6_unregistered_sender_never_executed
    (inputs : List SlotInput) (s : Nat)
    (h : ∀ inp ∈ inputs, inp.reg.WF ∧ s ∉ inp.reg.registered) :
    (∀ out ∈ processSlots [] inputs, ∀ bl ∈ out, bl.sender ≠ s) ∧
    (∀ bl ∈ processSlotsQueue [] inputs, bl.sender ≠ s) :=
  processSlots_sender_free s inputs [] (by simp) h

/-- C6 (witness): in the concrete unregistered-sender scenario, address 40
is never registered and no blob with sender 40 is ever executed or
deferred. -/
theorem C6_witness :
    (∀ inp ∈ c6Slots, inp.reg.WF ∧ 40 ∉ inp.reg.registered) ∧
    ((∀ out ∈ processSlots [] c6Slots, ∀ bl ∈ out, bl.sender ≠ 40) ∧
     (∀ bl ∈ processSlotsQueue [] c6Slots, bl.sender ≠ 40)) :=
  ⟨by decide, C6_unregistered_sender_never_executed c6Slots 40 (by decide)⟩

/-! ### Storage trait default-method theorems -/

/-- C3 (confirmed): for every ordered reads-and-writes set and witness,
whenever `compute_state_update` succeeds with `(root, update)`,
`validate_and_commit` on the same inputs succeeds with exactly that root
and the store state after `commit(update)`; and `validate_and_commit`
fails exactly when `compute_state_update` fails, with the same error —
so the two-step invocation yields the same root hash as the single
`validate_and_commit` call. -/
theorem C3_validate_and_commit_agreement
    (σ Acc W Upd P : Type) (S : StorageImpl σ Acc W Upd P)
    (s : σ) (a : Acc) (w : W) :
    (∀ root upd, S.compute_state_update s a w = .ok (root, upd) →
        validate_and_commit S s a w = .ok (root, S.commit s upd)) ∧
    (∀ e, S.compute_state_update s a w = .error e ↔
        validate_and_commit S s a w = .error e) := by
  cases h : S.compute_state_update s a w with
  | ok ru =>
      obtain ⟨root, upd⟩ := ru
      constructor
      · intro root' upd' h'
        injection h' with h''
        rw [Prod.mk.injEq] at h''
        obtain ⟨h1, h2⟩ := h''
        subst h1
        subst h2
        unfold validate_and_commit
        rw [h]
      · intro e
        unfold validate_and_commit
        rw [h]
        constructor
        · intro he
          cases he
        · intro he
          cases he
  | error e =>
      constructor
      · intro root' upd' h'
        cases h'
      · intro e'
        unfold validate_and_commit
        rw [h]
        simp

/-- C3 (witness): on the concrete `natStorage` store,
`compute_state_update 1 2` succeeds with root [3] and update 2, and
`validate_and_commit` returns the same root with the committed state. -/
theorem C3_witness :
    natStorage.compute_state_update 1 2 () = .ok ([3], 2) ∧
    validate_and_commit natStorage 1 2 () = .ok ([3], natStorage.commit 1 2) :=
  ⟨rfl, (C3_validate_and_commit_agreement _ _ _ _ _ natStorage 1 2 ()).1 [3] 2 rfl⟩

/-- C4 (confirmed): if `verify_proof` returns `Ok` then `open_proof`
succeeded on the same root and proof, the opened key equals
`StorageKey::new(map.prefix(), expected_key)`, and the returned value is
the opened value; and whenever `open_proof` succeeds but the opened key
differs from that encoding, `verify_proof` returns an error. -/
theorem C4_verify_proof_key_check
    (σ Acc W Upd P : Type) (S : StorageImpl σ Acc W Upd P)
    (s : σ) (state_root : List Nat) (proof : P)
    (expectedKeyEnc : List Nat) (storage_map : StateMapShape) :
    (∀ v, verify_proof S s state_root proof expectedKeyEnc storage_map = .ok v →
        S.open_proof s state_root proof =
          .ok (StorageKey.new storage_map.shapePfx expectedKeyEnc, v)) ∧
    (∀ k v, S.open_proof s state_root proof = .ok (k, v) →
        k ≠ StorageKey.new storage_map.shapePfx expectedKeyEnc →
        verify_proof S s state_root proof expectedKeyEnc storage_map =
          .error
      "The storage key from the proof does not match the expected storage key.") := by
  constructor
  · intro v hv
    cases hopen : S.open_proof s state_root proof with
    | ok kv =>
        obtain ⟨k, v'⟩ := kv
        rw [verify_proof, hopen] at hv
        dsimp only at hv
        by_cases hk : k = StorageKey.new storage_map.shapePfx expectedKeyEnc
        · rw [if_pos hk] at hv
          injection hv with hv'
          rw [hk, hv']
        · rw [if_neg hk] at hv
          cases hv
    | error e =>
        rw [verify_proof, hopen] at hv
        dsimp only at hv
        cases hv
  · intro k v hopen hk
    rw [verify_proof, hopen]
    dsimp only
    rw [if_neg hk]

/-- C4 (witness): on `natStorage`, a proof opening to key [9] while the
expected storage key is [5, 9] is rejected by `verify_proof`, and a proof
opening to the expected key is accepted with its value recovered by
`open_proof`. -/
theorem C4_witness :
    natStorage.open_proof 0 [0] ([9], some [1]) = .ok (⟨[9]⟩, some [1]) ∧
    (⟨[9]⟩ : StorageKey) ≠ StorageKey.new ⟨[5]⟩ [9] ∧
    verify_proof natStorage 0 [0] ([9], some [1]) [9] ⟨⟨[5]⟩⟩ =
      .error
      "The storage key from the proof does not match the expected storage key." :=
  ⟨rfl, by decide,
    (C4_verify_proof_key_check _ _ _ _ _ natStorage 0 [0] ([9], some [1])
      [9] ⟨⟨[5]⟩⟩).2 ⟨[9]⟩ (some [1]) rfl (by decide)⟩

/-! ### Chain validity condition theorem -/

/-- C9 (confirmed): `combine` returns the `BlocksNotConsecutive` error
exactly when the right condition's `prev_hash` differs from the left
condition's `block_hash`, and succeeds (returning the right condition)
whenever they agree; the error is a returned value, never a panic: the
result is always one of those two outcomes. -/
theorem C9_combine_consecutive (lhs rhs : ChainValidityCondition) :
    (lhs.combine rhs = .error .blocksNotConsecutive ↔
      rhs.prev_hash ≠ lhs.block_hash) ∧
    (rhs.prev_hash = lhs.block_hash → lhs.combine rhs = .ok rhs) ∧
    (lhs.combine rhs = .error .blocksNotConsecutive ∨ lhs.combine rhs = .ok rhs) := by
  by_cases h : lhs.block_hash = rhs.prev_hash
  · refine ⟨⟨fun hc => ?_, fun hne => absurd h.symm hne⟩, fun _ => ?_, .inr ?_⟩
    · rw [ChainValidityCondition.combine, if_neg (by simpa using h)] at hc
      cases hc
    · rw [ChainValidityCondition.combine, if_neg (by simpa using h)]
    · rw [ChainValidityCondition.combine, if_neg (by simpa using h)]
  · have hc : lhs.combine rhs = .error .blocksNotConsecutive := by
      rw [ChainValidityCondition.combine, if_pos (by simpa using h)]
    exact ⟨⟨fun _ => fun he => h he.symm, fun _ => hc⟩,
      fun he => absurd he.symm h, .inl hc⟩

/-- C9 (witness): two concrete consecutive conditions combine successfully
into the right-hand condition. -/
theorem C9_witness :
    (⟨[2], [3]⟩ : ChainValidityCondition).prev_hash =
      (⟨[1], [2]⟩ : ChainValidityCondition).block_hash ∧
    (⟨[1], [2]⟩ : ChainValidityCondition).combine ⟨[2], [3]⟩ = .ok ⟨[2], [3]⟩ :=
  ⟨rfl, (C9_combine_consecutive ⟨[1], [2]⟩ ⟨[2], [3]⟩).2.1 rfl⟩

/-! ### CountedBufReader theorems -/

/-- The accumulated vector of the completed-or-in-progress choice made at
the end of `read` is the extended accumulator either way. -/
theorem Accumulator.vec_ite (c : Prop) [Decidable c] (a : List Nat) :
    (if c then Accumulator.completed a else Accumulator.inProgress a).vec = a := by
  split <;> rfl

/-- `CountedBufReader::new` establishes the reader invariant. -/
theorem readerInv_new (L : List Nat) : ReaderInv L (CountedBufReader.new L) := by
  refine ⟨Nat.zero_le _, rfl, rfl, ?_⟩
  intro h
  cases h

/-- A single `read` preserves the reader invariant. -/
theorem readerInv_read (L : List Nat) (r : CountedBufReader) (n : Nat)
    (h : ReaderInv L r) : ReaderInv L (r.read n).1 := by
  obtain ⟨h1, h2, h3, h4⟩ := h
  cases hacc : r.accumulator with
  | completed v =>
      have hc : r.counter = L.length := h4 (by rw [hacc]; rfl)
      have hinner : r.inner = [] := by rw [h2, hc, List.drop_length]
      have hK : (r.read n).1 =
          { r with inner := r.inner.drop (min n r.inner.length) } := by
        simp [CountedBufReader.read, hacc]
      rw [hK]
      refine ⟨h1, ?_, h3, h4⟩
      dsimp only
      rw [hinner, List.drop_nil, hc, List.drop_length]
  | inProgress acc0 =>
      have hvec : acc0 = L.take r.counter := by rw [← h3, hacc]; rfl
      have hbe : min n r.inner.length ≤ r.inner.length := Nat.min_le_right n _
      have hil : r.inner.length = L.length - r.counter := by
        rw [h2, List.length_drop]
      have hK : (r.read n).1 =
          { inner := r.inner.drop (min n r.inner.length),
            counter := r.counter +
              (r.inner.length - (r.inner.drop (min n r.inner.length)).length),
            accumulator :=
              if (r.inner.drop (min n r.inner.length)).length = 0
              then Accumulator.completed
                (acc0 ++ r.inner.take (min n r.inner.length))
              else Accumulator.inProgress
                (acc0 ++ r.inner.take (min n r.inner.length)) } := by
        simp [CountedBufReader.read, hacc]
      have hnum : r.inner.length - (r.inner.drop (min n r.inner.length)).length =
          min n r.inner.length := by
        rw [List.length_drop]
        omega
      rw [hK, hnum]
      refine ⟨?_, ?_, ?_, ?_⟩ <;> dsimp only
      · omega
      · rw [h2, List.drop_drop]
      · rw [Accumulator.vec_ite, List.take_add, hvec, h2]
      · intro hcomp
        by_cases hz : (r.inner.drop (min n r.inner.length)).length = 0
        · rw [List.length_drop] at hz
          omega
        · rw [if_neg hz] at hcomp
          cases hcomp

/-- A sequence of `read` calls preserves the reader invariant. -/
theorem readerInv_readSeq (L : List Nat) (r : CountedBufReader) (ns : List Nat)
    (h : ReaderInv L r) : ReaderInv L (r.readSeq ns) := by
  induction ns generalizing r with
  | nil => exact h
  | cons n ns ih => exact ih (r.read n).1 (readerInv_read L r n h)

/-- C5 (confirmed): a read whose destination covers the full remaining
length of the buffer (in particular a read of exactly the remaining
length) moves the accumulator of an in-progress reader to
`Completed`, the completed vector extending the accumulator with the whole
remainder and the returned count being the bytes consumed; and on a reader
whose accumulator is already `Completed`, every read returns `Ok(0)` —
zero bytes consumed, a return value and not an error — and changes
neither the counter nor the accumulator. -/
theorem C5_accumulator_completion :
    (∀ (r : CountedBufReader) (n : Nat) (acc0 : List Nat),
        r.accumulator = .inProgress acc0 → r.inner.length ≤ n →
        ((r.read n).1.accumulator = .completed (acc0 ++ r.inner) ∧
         (r.read n).2 = r.inner.length)) ∧
    (∀ (r : CountedBufReader) (n : Nat) (v : List Nat),
        r.accumulator = .completed v →
        ((r.read n).2 = 0 ∧ (r.read n).1.counter = r.counter ∧
         (r.read n).1.accumulator = .completed v)) := by
  constructor
  · intro r n acc0 hacc hn
    have hmin : min n r.inner.length = r.inner.length := min_eq_right hn
    constructor <;>
      simp [CountedBufReader.read, hacc, hmin]
  · intro r n v hacc
    refine ⟨?_, ?_, ?_⟩ <;>
      simp [CountedBufReader.read, hacc]

/-- C5 (witness): reading 5 bytes from a fresh reader over [7, 8] consumes
the full remainder and completes the accumulator with [7, 8]; a further
read of a completed reader returns 0 and changes neither counter nor
accumulator. -/
theorem C5_witness :
    (((CountedBufReader.new [7, 8]).read 5).1.accumulator =
        .completed ([] ++ [7, 8]) ∧
     ((CountedBufReader.new [7, 8]).read 5).2 =
        (CountedBufReader.new [7, 8]).inner.length) ∧
    ((((CountedBufReader.new [7, 8]).read 5).1.read 3).2 = 0 ∧
     (((CountedBufReader.new [7, 8]).read 5).1.read 3).1.counter =
       ((CountedBufReader.new [7, 8]).read 5).1.counter ∧
     (((CountedBufReader.new [7, 8]).read 5).1.read 3).1.accumulator =
       .completed ([] ++ [7, 8])) :=
  ⟨C5_accumulator_completion.1 (CountedBufReader.new [7, 8]) 5 [] rfl
      (by decide),
   C5_accumulator_completion.2 ((CountedBufReader.new [7, 8]).read 5).1 3
      ([] ++ [7, 8]) (by decide)⟩

/-- C10 (confirmed): after any sequence of reads on a reader built over
buffer contents `L`, the counter plus the remaining length equals the
original length, `total_len` is constant and equal to the original length,
and the accumulator vector is exactly the first `counter` bytes of `L`. -/
theorem C10_reader_invariants (L ns : List Nat) :
    ((CountedBufReader.new L).readSeq ns).counter +
        ((CountedBufReader.new L).readSeq ns).inner.length = L.length ∧
    ((CountedBufReader.new L).readSeq ns).total_len = L.length ∧
    ((CountedBufReader.new L).readSeq ns).accumulator.vec =
      L.take ((CountedBufReader.new L).readSeq ns).counter := by
  obtain ⟨h1, h2, h3, _⟩ :=
    readerInv_readSeq L (CountedBufReader.new L) ns (readerInv_new L)
  refine ⟨?_, ?_, h3⟩
  · rw [h2, List.length_drop]
    omega
  · rw [CountedBufReader.total_len, h2, List.length_drop]
    omega

/-! ### Storage key encoding theorems -/

/-- The little-endian rendering of a number over `k` bytes has length `k`. -/
theorem leBytes_length (k : Nat) : ∀ n, (leBytes k n).length = k := by
  induction k with
  | zero => intro n; rfl
  | succ k ih => intro n; simp [leBytes, ih]

/-- C7 (counterexample): `StorageKey::new` is not injective on
(prefix, logical key) pairs. With `Vec<u8>` logical keys, the pair with
empty prefix and key [0] and the pair with prefix [1] and empty key are
distinct yet encode to the same flat byte key
[1, 0, 0, 0, 0, 0, 0, 0, 0] (the raw prefix bytes carry no delimiter, so
a byte of one prefix can absorb a byte of another pair's length field). -/
theorem C7_counterexample :
    ¬ (∀ (p1 : Prefix) (k1 : List Nat) (p2 : Prefix) (k2 : List Nat),
        (p1, k1) ≠ (p2, k2) →
        StorageKey.newVec p1 k1 ≠ StorageKey.newVec p2 k2) := by
  intro h
  exact h ⟨[]⟩ [0] ⟨[1]⟩ [] (by decide) (by decide)

/-- C7 (amended): for a fixed prefix, `StorageKey::new` over `Vec<u8>`
logical keys is injective — the std `Hash` encoding of a byte vector is
its 8-byte length followed by its contents, so equal flat keys under the
same prefix force equal logical keys; distinct pairs can only collide
across different prefixes. -/
theorem C7_same_prefix_injective (p : Prefix) (k1 k2 : List Nat)
    (h : StorageKey.newVec p k1 = StorageKey.newVec p k2) : k1 = k2 := by
  have hk : p.prefix_bytes ++ nohash_serialize_vec k1 =
      p.prefix_bytes ++ nohash_serialize_vec k2 := by
    have := congrArg StorageKey.key h
    simpa [StorageKey.newVec, StorageKey.new] using this
  have h2 := List.append_cancel_left hk
  rw [nohash_serialize_vec, nohash_serialize_vec] at h2
  exact (List.append_inj h2 (by rw [leBytes_length, leBytes_length])).2

/-- C7 (witness): the amended statement at a concrete input — equal
storage keys under prefix [7] recover equality of the keys. -/
theorem C7_witness :
    StorageKey.newVec ⟨[7]⟩ [1, 2] = StorageKey.newVec ⟨[7]⟩ [1, 2] ∧
    ([1, 2] : List Nat) = [1, 2] :=
  ⟨rfl, C7_same_prefix_injective ⟨[7]⟩ [1, 2] [1, 2] rfl⟩

/-! ### Working set round-trip theorem -/

/-- C8 (confirmed): within one batch and with no intervening commit, for
any prefix, key, value and codec that decodes its own encoding, `set`
followed by `get` on the same key through the same working set returns
the written value — both for `StateMap` and for `StateValue`. -/
theorem C8_set_then_get :
    (∀ (K V : Type) (m : StateMapModel K V) (k : K) (v : V)
        (ws : WorkingSetModel),
        m.value_codec.try_decode_value (m.value_codec.encode_value v) = some v →
        StateMapModel.get m k (StateMapModel.set m k v ws) = some v) ∧
    (∀ (V : Type) (sv : StateValueModel V) (v : V) (ws : WorkingSetModel),
        sv.value_codec.try_decode_value (sv.value_codec.encode_value v) = some v →
        StateValueModel.get sv (StateValueModel.set sv v ws) = some v) := by
  constructor
  · intro K V m k v ws hcodec
    simp [StateMapModel.get, StateMapModel.set, WorkingSetModel.get_value,
      WorkingSetModel.set_value, List.lookup, hcodec]
  · intro V sv v ws hcodec
    simp [StateValueModel.get, StateValueModel.set, WorkingSetModel.get_value,
      WorkingSetModel.set_value, List.lookup, hcodec]

/-- C8 (witness): on the concrete `Nat` codec, map and value fixtures,
set-then-get returns the written value 3. -/
theorem C8_witness :
    natCodec.try_decode_value (natCodec.encode_value 3) = some 3 ∧
    StateMapModel.get natMap 2 (StateMapModel.set natMap 2 3 emptyWS) = some 3 ∧
    StateValueModel.get natValue (StateValueModel.set natValue 3 emptyWS) =
      some 3 :=
  ⟨rfl, C8_set_then_get.1 Nat Nat natMap 2 3 emptyWS rfl,
   C8_set_then_get.2 Nat natValue 3 emptyWS rfl⟩

end SovSdk
